import Mathlib

/-!
Shallow embedding of the rgrep search tool (Rust) and verification of its
specification claims.

Source files embedded here:
- `src/config.rs`: `Config`, `Context`, `ExitStatus`, `RunResult`
- `src/boolean_parser.rs`: `BooleanExpr`, `parse_boolean_expression`,
  `BooleanParser`, `build_pattern_regexes`
- `src/regex_utils.rs`: `split_unescaped`, `build_regex`, `build_and_matchers`,
  `has_complex_boolean_ops`, `parse_boolean_if_complex`
- `src/search.rs`: `run_on_reader`, `parse_ts_from_formatted_line`,
  `collect_all_lines`, `merge_chronologically`, `concat_outputs`, `run`
- `src/follow.rs`: `FollowEngine::handle_line` and the per-batch evaluation of
  `process_new_file_content`
- `src/output.rs`: `append_formatted_line`
- `src/io_utils.rs` / `src/fs_utils.rs`: `read_to_lines`, `open_input`,
  `is_binary_path`

Modelling conventions:
- Machine integers (`usize`) are `Nat`; none of the embedded arithmetic can
  overflow in the claims under study (timestamp fields are at most 9 decimal
  digits, well below `i32::MAX`).
- The external regex crate (out of scope per the spec, §1) is an abstract
  `RegexEngine`: a compiled matcher is the textual pattern produced by the
  repository's own wrapping code plus the case/dotall flags, and the engine
  decides `is_match`. Claims about concrete inputs use `literalEngine`, which
  models the regex crate on metacharacter-free patterns: `is_match` is
  substring containment. Regex compilation errors are not modelled (no claim
  depends on them).
- Rust `String` is Lean `String` (in this toolchain a wrapper around
  `List Char`); byte-level file contents are `List Nat`, decoded one byte per
  char, which is faithful for the ASCII inputs of every claim.
- Fallible Rust functions returning `Result<_, String>` become
  `Except String _`. Recursive-descent parsing uses an explicit fuel argument
  (structural recursion) so that the kernel can evaluate it; the fuel budget
  `3 * length + 8` exceeds the maximum possible recursion depth of the Rust
  parser on the same input.
-/

namespace RGrep

/-- Context window configuration (src/config.rs `Context`): lines of leading
and trailing context. -/
structure Context where
  before : Nat
  after : Nat
deriving DecidableEq, Repr

/-- Search configuration (src/config.rs `Config`), field-for-field. -/
structure Config where
  patterns : List String
  invert : Bool
  count : Bool
  quiet : Bool
  word : Bool
  line : Bool
  context : Context
  color : Bool
  recursive : Bool
  case_insensitive : Bool
  dotall : Bool
  follow : Bool
deriving DecidableEq, Repr

/-- Default configuration (src/config.rs `impl Default for Config`); note that
`color` defaults to `true`. -/
def Config.default : Config :=
  { patterns := [], invert := false, count := false, quiet := false,
    word := false, line := false, context := ⟨0, 0⟩, color := true,
    recursive := false, case_insensitive := false, dotall := false,
    follow := false }

/-- Exit status (src/config.rs `ExitStatus`). -/
inductive ExitStatus where
  | MatchFound
  | NoMatch
deriving DecidableEq, Repr

/-- Result of a search run (src/config.rs `RunResult`). -/
structure RunResult where
  output : String
  status : ExitStatus
deriving DecidableEq, Repr

/-- Boolean pattern expression tree (src/boolean_parser.rs `BooleanExpr`).
The spec calls the leaf constructor `Literal`; the source names it
`Pattern`. -/
inductive BooleanExpr where
  | Pattern : String → BooleanExpr
  | And : BooleanExpr → BooleanExpr → BooleanExpr
  | Or : BooleanExpr → BooleanExpr → BooleanExpr
deriving DecidableEq, Repr

/-- Whitespace skipping of the parser (src/boolean_parser.rs
`BooleanParser::skip_whitespace`). -/
def skipWhitespace : List Char → List Char
  | [] => []
  | c :: cs => if c.isWhitespace then skipWhitespace cs else c :: cs

/-- Characters that end a literal run when unescaped
(src/boolean_parser.rs `parse_primary_expression`). -/
def isLitBreak (c : Char) : Bool :=
  c = '&' || c = '|' || c = ')' || c.isWhitespace

/-- The literal-run loop of `parse_primary_expression`
(src/boolean_parser.rs lines 137-162): collects characters until an unescaped
break character, keeping backslashes and the characters they escape verbatim.
The `Bool` argument is the `escaped` flag; returns the collected pattern and
the remaining input. -/
def litRun : List Char → Bool → List Char × List Char
  | [], _ => ([], [])
  | c :: cs, true =>
    let r := litRun cs false
    (c :: r.1, r.2)
  | c :: cs, false =>
    if c = '\\' then
      let r := litRun cs true
      (c :: r.1, r.2)
    else if isLitBreak c then ([], c :: cs)
    else
      let r := litRun cs false
      (c :: r.1, r.2)

/-- Recursion mode of the recursive-descent parser: `or`, `and` and `prim`
are `parse_or_expression`, `parse_and_expression` and
`parse_primary_expression`; `orTail`/`andTail` are the `while` loops of the
first two, carrying the left operand accumulated so far. -/
inductive PMode where
  | or
  | and
  | prim
  | orTail (left : BooleanExpr)
  | andTail (left : BooleanExpr)

/-- The recursive-descent parser of src/boolean_parser.rs (`BooleanParser`),
as one fuel-indexed function over the remaining input. Mirrors the source:
`or_expr := and_expr ('|' and_expr)*`, `and_expr := primary ('&' primary)*`,
`primary := '(' or_expr ')' | literal_run`, whitespace skipped only at the
start of a primary and before a closing parenthesis, and the two error
messages of the source. The fuel only bounds recursion depth; it is
unreachable with the budget used by `parse_boolean_expression`. -/
def parseGo : Nat → PMode → List Char → Except String (BooleanExpr × List Char)
  | 0, _, _ => .error "internal: parser fuel exhausted"
  | fuel + 1, mode, cs =>
    match mode with
    | .or => do
      let (l, cs₁) ← parseGo fuel .and cs
      parseGo fuel (.orTail l) cs₁
    | .orTail left =>
      match cs with
      | '|' :: rest => do
        let (r, cs₁) ← parseGo fuel .and rest
        parseGo fuel (.orTail (.Or left r)) cs₁
      | _ => .ok (left, cs)
    | .and => do
      let (p, cs₁) ← parseGo fuel .prim cs
      parseGo fuel (.andTail p) cs₁
    | .andTail left =>
      match cs with
      | '&' :: rest => do
        let (r, cs₁) ← parseGo fuel .prim rest
        parseGo fuel (.andTail (.And left r)) cs₁
      | _ => .ok (left, cs)
    | .prim =>
      match skipWhitespace cs with
      | '(' :: rest => do
        let (e, cs₁) ← parseGo fuel .or rest
        match skipWhitespace cs₁ with
        | ')' :: rest₁ => .ok (e, rest₁)
        | _ => .error "Expected closing parenthesis"
      | cs₁ =>
        let r := litRun cs₁ false
        if r.1 = [] then .error "Expected pattern"
        else .ok (.Pattern r.1.asString, r.2)

/-- Parse a Boolean pattern expression (src/boolean_parser.rs
`parse_boolean_expression`). As in the source, input remaining after a
complete top-level expression is ignored. -/
def parse_boolean_expression (input : String) : Except String BooleanExpr :=
  match parseGo (3 * input.data.length + 8) .or input.data with
  | .ok (e, _) => .ok e
  | .error e => .error e

deriving instance DecidableEq for Except

/-- A compiled matcher handed to the external regex engine: the textual
pattern produced by the repository's wrapping code, plus the two options the
source passes to `RegexBuilder` (`case_insensitive`, `dot_matches_new_line`).
`multi_line(true)` is always set by the source and is therefore implicit. -/
structure CompiledRegex where
  pattern : String
  caseInsensitive : Bool
  dotall : Bool
deriving DecidableEq, Repr

/-- The external regex engine (out of scope per spec §1): answers `is_match`
for a compiled matcher, and renders highlighted text for a line
(`Regex::find_iter` driving `highlight_segments`). Only the fact that
highlighting is a function of the compiled matcher and the line matters to
the claims; no concrete claim enables `color`. -/
structure RegexEngine where
  isMatch : CompiledRegex → String → Bool
  highlight : CompiledRegex → String → String

/-- Word wrapping applied before compilation when `cfg.word` is set
(src/regex_utils.rs and src/boolean_parser.rs). -/
def wrapWord (cfg : Config) (p : String) : String :=
  if cfg.word then "\\b(?:" ++ p ++ ")\\b" else p

/-- Line wrapping applied (after word wrapping) when `cfg.line` is set. -/
def wrapLine (cfg : Config) (p : String) : String :=
  if cfg.line then "^(?:" ++ p ++ ")$" else p

/-- Pair a final pattern text with the builder options taken from the
configuration. -/
def mkCompiled (cfg : Config) (pat : String) : CompiledRegex :=
  ⟨pat, cfg.case_insensitive, cfg.dotall⟩

/-- Compilation of one literal of a Boolean expression
(src/boolean_parser.rs `build_pattern_regexes`): word wrap, then line wrap,
then the builder options. -/
def build_pattern_regex (cfg : Config) (p : String) : CompiledRegex :=
  mkCompiled cfg (wrapLine cfg (wrapWord cfg p))

/-- Evaluation of a Boolean expression against a line
(src/boolean_parser.rs `BooleanExpr::matches`). The source looks each
pattern up in the map built by `build_pattern_regexes`, which contains every
pattern of the expression, so the lookup is modelled by compiling the
pattern directly. -/
def BooleanExpr.matchesLine (eng : RegexEngine) (cfg : Config) :
    BooleanExpr → String → Bool
  | .Pattern p, l => eng.isMatch (build_pattern_regex cfg p) l
  | .And a b, l => a.matchesLine eng cfg l && b.matchesLine eng cfg l
  | .Or a b, l => a.matchesLine eng cfg l || b.matchesLine eng cfg l

/-- The character-splitting loop of src/regex_utils.rs `split_unescaped`:
splits at unescaped occurrences of `sep`, keeping backslashes in the parts.
The `Bool` is the `escaped` flag; `consCurrent` prepends a kept character to
the current (head) part. -/
def consCurrent (c : Char) : List (List Char) → List (List Char)
  | [] => [[c]]
  | h :: t => (c :: h) :: t

/-- See `consCurrent`; this is `split_unescaped`'s loop over the input. -/
def splitUnescapedChars (sep : Char) : List Char → Bool → List (List Char)
  | [], _ => [[]]
  | c :: cs, true => consCurrent c (splitUnescapedChars sep cs false)
  | c :: cs, false =>
    if c = '\\' then consCurrent c (splitUnescapedChars sep cs true)
    else if c = sep then [] :: splitUnescapedChars sep cs false
    else consCurrent c (splitUnescapedChars sep cs false)

/-- Split a pattern at unescaped separators (src/regex_utils.rs
`split_unescaped`). -/
def split_unescaped (input : String) (sep : Char) : List String :=
  (splitUnescapedChars sep input.data false).map List.asString

/-- Join strings with a separator, as Rust's `[String]::join`. -/
def joinSep (sep : String) : List String → String
  | [] => ""
  | [s] => s
  | s :: rest => s ++ sep ++ joinSep sep rest

/-- The single expression string the search works on: the configured
patterns joined with no separator (`cfg.patterns.join("")`, used identically
in `build_regex`, `build_and_matchers` and `parse_boolean_if_complex`). -/
def rawPattern (cfg : Config) : String :=
  String.join cfg.patterns

/-- Build the unified display/matching regex (src/regex_utils.rs
`build_regex`): when the joined pattern contains `&`, the `&`-separated
parts are joined with `|` (an alternation used for highlighting); then word
and line wrapping and the builder options are applied. -/
def build_regex (cfg : Config) : CompiledRegex :=
  let raw := rawPattern cfg
  let pat :=
    if raw.data.contains '&' then joinSep "|" (split_unescaped raw '&')
    else raw
  mkCompiled cfg (wrapLine cfg (wrapWord cfg pat))

/-- Build the per-part AND matchers (src/regex_utils.rs
`build_and_matchers`): `none` when the joined pattern has no `&`; otherwise
one matcher per `&`-separated part, word-wrapped but deliberately never
line-wrapped. -/
def build_and_matchers (cfg : Config) : Option (List CompiledRegex) :=
  let raw := rawPattern cfg
  if raw.data.contains '&' then
    some ((split_unescaped raw '&').map fun p => mkCompiled cfg (wrapWord cfg p))
  else none

/-- Routing predicate (src/regex_utils.rs `has_complex_boolean_ops`): a
pattern needs the Boolean parser when it contains a parenthesis, or both `&`
and `|`. -/
def has_complex_boolean_ops (pattern : String) : Bool :=
  pattern.data.contains '(' || pattern.data.contains ')'
    || (pattern.data.contains '&' && pattern.data.contains '|')

/-- Parse the joined pattern with the Boolean parser when it is complex
(src/regex_utils.rs `parse_boolean_if_complex`); otherwise report `none` so
the flat path is used. Parse failures surface with the source's message
prefix. The regex map the source builds alongside the expression is total on
the expression's patterns and is modelled inside
`BooleanExpr.matchesLine`. -/
def parse_boolean_if_complex (cfg : Config) : Except String (Option BooleanExpr) :=
  if cfg.patterns = [] then .ok none
  else
    let raw := rawPattern cfg
    if has_complex_boolean_ops raw then
      match parse_boolean_expression raw with
      | .ok e => .ok (some e)
      | .error e => .error ("Boolean expression parse error: " ++ e)
    else .ok none

/-- Append one formatted output line (src/output.rs `append_formatted_line`):
always `"<1-based line number>:<content>"` plus a newline; the filename and
the two flags are ignored by the source and kept here for fidelity. -/
def append_formatted_line (out : String) (_filename : Option String)
    (idx : Nat) (line : String) (_isMatch : Bool) (_lineMode : Bool) : String :=
  out ++ toString (idx + 1) ++ ":" ++ line ++ "\n"

/-- Loop state of `run_on_reader` (src/search.rs lines 48-56): output buffer,
whether any line matched, the match count, the bounded before-context buffer
of (0-based index, content) pairs, and the trailing-context countdown. -/
structure LoopSt where
  out : String
  matchedAny : Bool
  matchCount : Nat
  beforeBuf : List (Nat × String)
  afterRemaining : Nat
deriving Repr

/-- Per-line match decision of `run_on_reader` (src/search.rs lines 59-68):
Boolean-tree evaluation when a parsed expression is active, else the AND
matchers when present, else the single unified regex. -/
def lineDecision (eng : RegexEngine) (cfg : Config)
    (bexpr : Option BooleanExpr) (andMs : Option (List CompiledRegex))
    (re : CompiledRegex) (l : String) : Bool :=
  match bexpr with
  | some expr => expr.matchesLine eng cfg l
  | none =>
    match andMs with
    | some ands => ands.all fun r => eng.isMatch r l
    | none => eng.isMatch re l

/-- The final per-line decision after `invert` (src/search.rs line 69). -/
def finalDecision (eng : RegexEngine) (cfg : Config)
    (bexpr : Option BooleanExpr) (andMs : Option (List CompiledRegex))
    (re : CompiledRegex) (l : String) : Bool :=
  let is_match := lineDecision eng cfg bexpr andMs re l
  if cfg.invert then !is_match else is_match

/-- One iteration of `run_on_reader`'s main loop (src/search.rs lines
58-117): apply `invert`, update the counters, and in non-count mode either
emit the before-context and the (possibly highlighted) matching line, or
push the line into the before buffer and possibly emit it as trailing
context. Note the source pushes a non-matching line into the before buffer
before checking `after_remaining`, so a line emitted as trailing context is
also stored as leading context for a later match. -/
def processLine (eng : RegexEngine) (cfg : Config)
    (bexpr : Option BooleanExpr) (andMs : Option (List CompiledRegex))
    (re : CompiledRegex) (name : Option String)
    (st : LoopSt) (idx : Nat) (raw : String) : LoopSt :=
  let final_match := finalDecision eng cfg bexpr andMs re raw
  let matchedAny := st.matchedAny || final_match
  let matchCount := if final_match then st.matchCount + 1 else st.matchCount
  if cfg.count then
    { st with
      matchedAny := matchedAny, matchCount := matchCount,
      afterRemaining := cfg.context.after }
  else if final_match then
    let out :=
      if 0 < cfg.context.before then
        st.beforeBuf.foldl
          (fun o p => append_formatted_line o name p.1 p.2 false false) st.out
      else st.out
    let text := if cfg.color && !cfg.line then eng.highlight re raw else raw
    let out := append_formatted_line out name idx text true cfg.line
    { out := out, matchedAny := matchedAny, matchCount := matchCount,
      beforeBuf := if 0 < cfg.context.before then [] else st.beforeBuf,
      afterRemaining := cfg.context.after : LoopSt }
  else
    let buf :=
      if 0 < cfg.context.before then
        let b := st.beforeBuf ++ [(idx, raw)]
        if cfg.context.before < b.length then b.tail else b
      else st.beforeBuf
    if 0 < st.afterRemaining then
      { st with
        out := append_formatted_line st.out name idx raw false false,
        matchedAny := matchedAny, matchCount := matchCount, beforeBuf := buf,
        afterRemaining := st.afterRemaining - 1 }
    else
      { st with
        matchedAny := matchedAny, matchCount := matchCount,
        beforeBuf := buf }

/-- The `for (idx, raw_line) in lines.iter().enumerate()` loop of
`run_on_reader`, starting at index `idx`. -/
def runLinesGo (eng : RegexEngine) (cfg : Config)
    (bexpr : Option BooleanExpr) (andMs : Option (List CompiledRegex))
    (re : CompiledRegex) (name : Option String) :
    Nat → LoopSt → List String → LoopSt
  | _, st, [] => st
  | idx, st, l :: ls =>
    runLinesGo eng cfg bexpr andMs re name (idx + 1)
      (processLine eng cfg bexpr andMs re name st idx l) ls

/-- Run a search over a sequence of input lines (src/search.rs
`run_on_reader`, with `read_to_lines` already applied so the reader is a
line list). Checks for an empty pattern list, routes through
`parse_boolean_if_complex`, builds the unified regex and — on the flat path
only — the AND matchers, folds the loop, renders the count line in count
mode, and blanks the output in quiet mode. -/
def run_on_reader (eng : RegexEngine) (cfg : Config) (lines : List String)
    (name : Option String) : Except String RunResult :=
  if cfg.patterns = [] then .error "no pattern provided"
  else
    match parse_boolean_if_complex cfg with
    | .error e => .error e
    | .ok bexpr =>
      let re := build_regex cfg
      let andMs := if bexpr.isSome then none else build_and_matchers cfg
      let st := runLinesGo eng cfg bexpr andMs re name 0
        ⟨"", false, 0, [], 0⟩ lines
      let out :=
        if cfg.count && !cfg.quiet then
          match name with
          | some n => st.out ++ n ++ ":" ++ toString st.matchCount ++ "\n"
          | none => st.out ++ toString st.matchCount ++ "\n"
        else st.out
      let status := if st.matchedAny then ExitStatus.MatchFound else .NoMatch
      if cfg.quiet then .ok ⟨"", status⟩ else .ok ⟨out, status⟩

/-- State of the follow-mode context evaluator (src/follow.rs
`FollowEngine`): rolling before-context buffer and trailing-context
countdown. -/
structure FollowState where
  beforeBuf : List String
  afterRemaining : Nat
deriving DecidableEq, Repr

/-- The follow-mode transition function (src/follow.rs
`FollowEngine::handle_line`): on a match, emit the before buffer (oldest
first) and the line, arm the after counter and clear the buffer; else if
trailing context is owed, emit the line and decrement; else (only then)
push the line into the bounded before buffer. Returns the emitted lines and
the next state. -/
def handle_line (before_n after_n : Nat) (st : FollowState) (line : String)
    (is_match : Bool) : List String × FollowState :=
  if is_match then
    ((if 0 < before_n then st.beforeBuf else []) ++ [line], ⟨[], after_n⟩)
  else if 0 < st.afterRemaining then
    ([line], ⟨st.beforeBuf, st.afterRemaining - 1⟩)
  else if 0 < before_n then
    let buf :=
      if st.beforeBuf.length = before_n then st.beforeBuf.tail else st.beforeBuf
    ([], ⟨buf ++ [line], st.afterRemaining⟩)
  else ([], st)

/-- Feed a batch of (line, is_match) decisions through a freshly constructed
follow engine, concatenating everything printed (src/follow.rs
`process_new_file_content` + `process_line`, with the match decision taken
as input). -/
def followCtxBatch (before_n after_n : Nat) (seq : List (String × Bool)) :
    List String :=
  (seq.foldl
    (fun (acc : List String × FollowState) p =>
      let r := handle_line before_n after_n acc.2 p.1 p.2
      (acc.1 ++ r.1, r.2))
    ([], ⟨[], 0⟩)).1

/-- The batch driver's context logic (src/search.rs lines 80-111), extracted
at the (line, is_match) level: the same branches as `processLine`'s non-count
path, recording emitted line contents. State is the before buffer and the
after countdown; `idx` tracks the 0-based line index stored in the buffer. -/
def searchCtxStep (before_n after_n : Nat)
    (st : List (Nat × String) × Nat) (idx : Nat) (line : String)
    (final_match : Bool) : List String × (List (Nat × String) × Nat) :=
  if final_match then
    ((if 0 < before_n then st.1.map Prod.snd else []) ++ [line],
     (if 0 < before_n then [] else st.1, after_n))
  else
    let buf :=
      if 0 < before_n then
        let b := st.1 ++ [(idx, line)]
        if before_n < b.length then b.tail else b
      else st.1
    if 0 < st.2 then ([line], (buf, st.2 - 1))
    else ([], (buf, st.2))

/-- Feed a batch of (line, is_match) decisions through the batch driver's
context logic from a fresh state, collecting emitted line contents. -/
def searchCtxBatch (before_n after_n : Nat) (seq : List (String × Bool)) :
    List String :=
  (seq.foldl
    (fun (acc : List String × List (Nat × String) × Nat × Nat) p =>
      let r := searchCtxStep before_n after_n (acc.2.1, acc.2.2.1) acc.2.2.2
        p.1 p.2
      (acc.1 ++ r.1, r.2.1, r.2.2, acc.2.2.2 + 1))
    ([], [], 0, 0)).1

/-- Substring test on character lists: `hasPrefixSeq p l` holds when `p` is
an initial segment of `l`. -/
def hasPrefixSeq : List Char → List Char → Bool
  | [], _ => true
  | _ :: _, [] => false
  | a :: as, b :: bs => a = b && hasPrefixSeq as bs

/-- Substring containment on character lists (contiguous). -/
def containsSeq (p : List Char) : List Char → Bool
  | [] => hasPrefixSeq p []
  | l@(_ :: rest) => hasPrefixSeq p l || containsSeq p rest

/-- The external regex crate restricted to metacharacter-free literal
patterns: `is_match` is substring containment of the pattern text in the
line (case/dotall flags are irrelevant for such patterns and ignored).
Highlighting is the identity, matching colorization being disabled; every
concrete claim below runs with `color := false`, so `highlight` is never
reached there. -/
def literalEngine : RegexEngine :=
  ⟨fun re line => containsSeq re.pattern.data line.data, fun _ l => l⟩

/-- Strip one trailing carriage return, as Rust's line splitting does for
`\r\n` endings. -/
def stripTrailingCr (l : List Char) : List Char :=
  if l.getLast? = some '\r' then l.dropLast else l

/-- Rust line splitting (`str::lines` / `BufRead::lines`): split at `'\n'`,
strip a `'\r'` preceding each `'\n'`, and do not produce a final empty line
for a trailing terminator. The accumulator holds the current line
reversed. -/
def splitLinesGo : List Char → List Char → List (List Char)
  | [], cur => if cur = [] then [] else [cur.reverse]
  | c :: cs, cur =>
    if c = '\n' then stripTrailingCr cur.reverse :: splitLinesGo cs []
    else splitLinesGo cs (c :: cur)

/-- Rust's `str::lines` over a Lean string. -/
def charLines (s : String) : List String :=
  (splitLinesGo s.data []).map List.asString

/-- The modelled filesystem: maps a path to the byte content of the file, or
`none` when the file cannot be opened. Directory walking
(`expand_inputs`, out of scope per spec §1) happens upstream of the
functions below, which receive the expanded file list. -/
def FS : Type := String → Option (List Nat)

/-- Bytes of an ASCII string, for building concrete filesystems. -/
def strBytes (s : String) : List Nat :=
  s.data.map Char.toNat

/-- Decode file bytes to input lines (src/io_utils.rs `read_to_lines` over
the opened file): one char per byte (faithful for ASCII content; no claim
depends on multi-byte decoding), split Rust-style. -/
def decodeBytesLines (bs : List Nat) : List String :=
  (splitLinesGo (bs.map Char.ofNat) []).map List.asString

/-- Binary-file detection (src/fs_utils.rs `is_binary_path`): the special
path "-" is never binary; an unopenable file is not binary (deferring the
failure to the later open); otherwise, binary iff the first 4096 bytes
contain a NUL byte. The source's single `read` call is modelled as reading
the full 4096-byte prefix. -/
def is_binary_path (fs : FS) (path : String) : Bool :=
  if path = "-" then false
  else
    match fs path with
    | none => false
    | some bs => (bs.take 4096).any fun b => b = 0

/-- Open an input source as lines (src/io_utils.rs `open_input` +
`read_to_lines`): "-" reads the modelled stdin; otherwise the file's bytes
are decoded, and `none` reports an open failure. -/
def open_input_lines (fs : FS) (stdin : List String) (p : String) :
    Option (List String) :=
  if p = "-" then some stdin else (fs p).map decodeBytesLines

/-- Message used for a failed open; the real message comes from
`io::Error`'s environment-dependent rendering, which no claim inspects. -/
def openErr (p : String) : String :=
  "cannot open " ++ p

/-- A parsed timestamp (src/search.rs `parse_ts_from_formatted_line` result
tuple `(y, m, d, h, min, s, nanos)`); `Nat` fields are exact for the i32
values the source produces (each component is at most 9 decimal digits). -/
structure TsVal where
  y : Nat
  mo : Nat
  d : Nat
  h : Nat
  mi : Nat
  s : Nat
  ns : Nat
deriving DecidableEq, Repr

/-- Read exactly `n` ASCII digits, accumulating their value. -/
def readDigitsAux : Nat → Nat → List Char → Option (Nat × List Char)
  | 0, acc, cs => some (acc, cs)
  | _ + 1, _, [] => none
  | n + 1, acc, c :: cs =>
    if c.isDigit then readDigitsAux n (acc * 10 + (c.toNat - 48)) cs else none

/-- Expect one specific character. -/
def expectChar (c : Char) : List Char → Option (List Char)
  | [] => none
  | d :: cs => if d = c then some cs else none

/-- Numeric value of a digit list. -/
def digitsVal (ds : List Char) : Nat :=
  ds.foldl (fun a c => a * 10 + (c.toNat - 48)) 0

/-- Match the timestamp regex of src/search.rs lines 163-172 at the head of
the input: four digits, "-", two digits, "-", two digits, a space or "T",
then HH:MM:SS and an optional fraction of one to nine digits. The
fractional digits are right-padded with zeros to nanoseconds, exactly as
the source normalizes them (lines 181-189). The source writes the separator
class as a space-or-T class inside an extended-mode regex, per its own
comment "timestamps: YYYY-MM-DD[ T]HH:MM:SS"; the class is modelled
literally (space or T) as that comment and the spec describe. Whether the
unpinned external regex crate's verbose mode keeps the literal space inside
the class is version-dependent; every concrete input proved here uses the
"T" separator, on which all versions agree. -/
def tsAt (cs : List Char) : Option TsVal := do
  let (y, cs) ← readDigitsAux 4 0 cs
  let cs ← expectChar '-' cs
  let (mo, cs) ← readDigitsAux 2 0 cs
  let cs ← expectChar '-' cs
  let (d, cs) ← readDigitsAux 2 0 cs
  let cs ←
    match cs with
    | c :: rest => if c = ' ' || c = 'T' then some rest else none
    | [] => none
  let (h, cs) ← readDigitsAux 2 0 cs
  let cs ← expectChar ':' cs
  let (mi, cs) ← readDigitsAux 2 0 cs
  let cs ← expectChar ':' cs
  let (s, cs) ← readDigitsAux 2 0 cs
  match cs with
  | '.' :: rest =>
    let ds := (rest.takeWhile Char.isDigit).take 9
    if ds = [] then some ⟨y, mo, d, h, mi, s, 0⟩
    else some ⟨y, mo, d, h, mi, s, digitsVal ds * 10 ^ (9 - ds.length)⟩
  | _ => some ⟨y, mo, d, h, mi, s, 0⟩

/-- Leftmost occurrence of the timestamp pattern (`Regex::captures` finds
the leftmost match). -/
def findTs : List Char → Option TsVal
  | [] => none
  | c :: cs =>
    match tsAt (c :: cs) with
    | some t => some t
    | none => findTs cs

/-- Everything after the first colon, or `none` when there is no colon
(Rust `line.splitn(2, ':').nth(1)`). -/
def afterFirstColon : List Char → Option (List Char)
  | [] => none
  | c :: cs => if c = ':' then some cs else afterFirstColon cs

/-- Parse a timestamp out of a formatted output line (src/search.rs
`parse_ts_from_formatted_line`): strip the `<lineno>:` prefix, then search
the content for the timestamp pattern. -/
def parse_ts_from_formatted_line (line : String) : Option TsVal :=
  match afterFirstColon line.data with
  | none => none
  | some content => findTs content

/-- One collected output line (src/search.rs `collect_all_lines` tuple):
optional timestamp, original file index, line index within that file's
output, and the line text. -/
structure OutLine where
  ts : Option TsVal
  fileIdx : Nat
  lineIdx : Nat
  text : String
deriving DecidableEq, Repr

/-- Collect all lines of the per-file outputs with parsed timestamps
(src/search.rs `collect_all_lines`). -/
def collect_all_lines (outputs : List (Nat × String)) : List OutLine :=
  outputs.flatMap fun p =>
    (charLines p.2).enum.map fun q =>
      ⟨parse_ts_from_formatted_line q.2, p.1, q.1, q.2⟩

/-- The sort key of the chronological merge: timestamp components, then
original file index, then line index (src/search.rs lines 212-220). The
timestamp default is irrelevant: the merge only sorts when every line has
one. -/
def keyOf (e : OutLine) : List Nat :=
  let t := e.ts.getD ⟨0, 0, 0, 0, 0, 0, 0⟩
  [t.y, t.mo, t.d, t.h, t.mi, t.s, t.ns, e.fileIdx, e.lineIdx]

/-- Lexicographic comparison of equal-length `Nat` lists, as Rust's derived
tuple `cmp` chained with the index comparisons. -/
def lexLeB : List Nat → List Nat → Bool
  | [], _ => true
  | _ :: _, [] => false
  | a :: as, b :: bs =>
    if a < b then true else if b < a then false else lexLeB as bs

/-- The merge ordering on collected lines. -/
def outLineLe (a b : OutLine) : Prop :=
  lexLeB (keyOf a) (keyOf b) = true

instance : DecidableRel outLineLe := fun a b =>
  inferInstanceAs (Decidable (lexLeB (keyOf a) (keyOf b) = true))

/-- Merge lines chronologically when every line carries a timestamp
(src/search.rs `merge_chronologically`); `none` when the collection is
empty or any line lacks one. Rust's stable `sort_by` is modelled with
insertion sort: the comparator is a total order that is strict on distinct
elements (the (file index, line index) pair is unique per line), so every
comparison-correct sort produces the same list. -/
def merge_chronologically (entries : List OutLine) : Option String :=
  if entries.isEmpty || entries.any (fun e => e.ts.isNone) then none
  else
    some (String.join
      ((List.insertionSort outLineLe entries).map fun e => e.text ++ "\n"))

/-- Concatenate per-file outputs in input order (src/search.rs
`concat_outputs`). -/
def concat_outputs (outputs : List (Nat × String)) : String :=
  String.join (outputs.map Prod.snd)

/-- Accumulator of the result-collection loop of `run` (src/search.rs lines
281-299). -/
structure AggAcc where
  outputs : List (Nat × String)
  errs : List String
  matchedAny : Bool
deriving Repr

/-- One step of the result-collection loop of `run` (src/search.rs lines
289-299): push a success's output, or collect the error. -/
def splitStep (acc : AggAcc) (r : Nat × Except String RunResult) : AggAcc :=
  match r.2 with
  | .ok rr =>
    { acc with
      outputs := acc.outputs ++ [(r.1, rr.output)],
      matchedAny := acc.matchedAny || rr.status = .MatchFound }
  | .error e => { acc with errs := acc.errs ++ [e] }

/-- Fold the per-file results in index order, collecting outputs, errors,
and whether any file matched (src/search.rs lines 289-299). -/
def splitResults (rs : List (Nat × Except String RunResult)) : AggAcc :=
  rs.foldl splitStep ⟨[], [], false⟩

/-- The files surviving binary filtering, paired with their original input
indices (src/search.rs lines 246-250). -/
def filteredFiles (fs : FS) (files : List String) : List (Nat × String) :=
  files.enum.filter fun p => !(is_binary_path fs p.2)

/-- Per-file task of the parallel dispatch (src/search.rs lines 271-279):
open the file and run the search with its name. -/
def fileRunOf (eng : RegexEngine) (cfg : Config) (fs : FS)
    (stdin : List String) (p : String) : Except String RunResult :=
  match open_input_lines fs stdin p with
  | none => .error (openErr p)
  | some ls => run_on_reader eng cfg ls (some p)

/-- Output of a per-file task, defaulting to the empty string on error
(used only to state theorems whose hypotheses rule the error out). -/
def fileOutputOf (eng : RegexEngine) (cfg : Config) (fs : FS)
    (stdin : List String) (p : String) : String :=
  match fileRunOf eng cfg fs stdin p with
  | .ok r => r.output
  | .error _ => ""

/-- Status of a per-file task, defaulting to `NoMatch` on error. -/
def fileStatusOf (eng : RegexEngine) (cfg : Config) (fs : FS)
    (stdin : List String) (p : String) : ExitStatus :=
  match fileRunOf eng cfg fs stdin p with
  | .ok r => r.status
  | .error _ => .NoMatch

/-- The aggregate search over the expanded input list (src/search.rs `run`,
from line 240 on; `expand_inputs` is applied upstream). A sole "-" reads
stdin; binary files are filtered out; an empty remainder yields an empty
`NoMatch` result; a single file runs inline (count mode suppressing the
name); multiple files run independently (the source runs them in parallel
and re-sorts by original index, which over the order-preserving map below
is the identity — spec §5 requires exactly this determinism), errors abort
the run joined by newlines, and otherwise quiet, count, or the
chronological merge with concatenation fallback produce the output. -/
def run_expanded (eng : RegexEngine) (cfg : Config) (fs : FS)
    (stdin : List String) (files : List String) : Except String RunResult :=
  if files = ["-"] then run_on_reader eng cfg stdin none
  else
    let filtered := filteredFiles fs files
    if filtered.isEmpty then .ok ⟨"", .NoMatch⟩
    else if filtered.length = 1 then
      match filtered with
      | [] => .ok ⟨"", .NoMatch⟩
      | (_, name) :: _ =>
        match open_input_lines fs stdin name with
        | none => .error (openErr name)
        | some ls =>
          if cfg.count then run_on_reader eng cfg ls none
          else run_on_reader eng cfg ls (some name)
    else
      let results := filtered.map fun p => (p.1, fileRunOf eng cfg fs stdin p.2)
      let acc := splitResults results
      if !acc.errs.isEmpty then .error (joinSep "\n" acc.errs)
      else
        let status :=
          if acc.matchedAny then ExitStatus.MatchFound else ExitStatus.NoMatch
        if cfg.quiet then .ok ⟨"", status⟩
        else if cfg.count then .ok ⟨concat_outputs acc.outputs, status⟩
        else
          let merged := merge_chronologically (collect_all_lines acc.outputs)
          .ok ⟨merged.getD (concat_outputs acc.outputs), status⟩

/-- Pointwise update of the modelled filesystem. -/
def updateFS (fs : FS) (p : String) (bs : List Nat) : FS :=
  fun q => if q = p then some bs else fs q

/-- Characters allowed in an operator-free, whitespace-free expression
(the amended form of the operator-free literal property). -/
def opFreeChar (c : Char) : Bool :=
  !(c = '&') && !(c = '|') && !(c = '(') && !(c = ')') && !c.isWhitespace

/-- Output of an `Except`-valued per-file run, empty on error. -/
def exOutput : Except String RunResult → String
  | .ok r => r.output
  | .error _ => ""

/-- Status of an `Except`-valued per-file run, `NoMatch` on error. -/
def exStatus : Except String RunResult → ExitStatus
  | .ok r => r.status
  | .error _ => .NoMatch

/-- The per-file outputs the aggregator collects in the all-successful case,
in original input order. -/
def aggOutputs (eng : RegexEngine) (cfg : Config) (fs : FS)
    (stdin : List String) (files : List String) : List (Nat × String) :=
  (filteredFiles fs files).map fun p => (p.1, fileOutputOf eng cfg fs stdin p.2)

/-- Concrete configuration: pattern "match", one line of context each way,
colorization off (the spec's bit-exact scenarios assume uncolored
output). -/
def cfgMatch11 : Config :=
  { Config.default with
    patterns := ["match"], context := ⟨1, 1⟩, color := false }

/-- Concrete configuration with two literal patterns. -/
def cfgTwoPat : Config :=
  { Config.default with patterns := ["a", "b"], color := false }

/-- Concrete configuration with two flat literal patterns. -/
def cfgFooBar : Config :=
  { Config.default with patterns := ["foo", "bar"], color := false }

/-- Concrete configuration with a complex Boolean pattern. -/
def cfgComplex : Config :=
  { Config.default with patterns := ["a&(b|c)"] }

/-- Concrete configuration with the single-letter pattern "x". -/
def cfgLitX : Config :=
  { Config.default with patterns := ["x"], color := false }

/-- Concrete filesystem with two timestamped log files, later timestamp in
the file listed first. -/
def fsTwoLogs : FS := fun p =>
  if p = "b.log" then some (strBytes "2024-01-02T03:04:05 x\n")
  else if p = "a.log" then some (strBytes "2024-01-01T03:04:05 x\n")
  else none

/-- Concrete filesystem with one text file. -/
def fsOneText : FS := fun p =>
  if p = "ok.txt" then some (strBytes "a match here\n") else none

/-- Binary content: the bytes of "match" followed by a NUL byte. -/
def nulAfterMatch : List Nat :=
  strBytes "match" ++ [0]

/-- Concrete filesystem holding a single binary file. -/
def fsOneBinary : FS := fun p =>
  if p = "only.bin" then some [0] else none

/-- Default configuration with colorization off. -/
def cfgNoColor : Config :=
  { Config.default with color := false }

/-- Status from the `matched_any` flag (src/search.rs lines 127-131). -/
def statusOfB (b : Bool) : ExitStatus :=
  if b then .MatchFound else .NoMatch

/-- Output assembly after the loop (src/search.rs lines 119-125): the count
line in count mode, otherwise the loop's buffer. -/
def assembleOut (cfg : Config) (name : Option String) (st : LoopSt) : String :=
  if cfg.count && !cfg.quiet then
    match name with
    | some n => st.out ++ n ++ ":" ++ toString st.matchCount ++ "\n"
    | none => st.out ++ toString st.matchCount ++ "\n"
  else st.out

/-- The loop of `run_on_reader` on the flat single-regex path (no Boolean
expression, no AND matchers). -/
def flatLoop (eng : RegexEngine) (cfg : Config) (name : Option String)
    (lines : List String) : LoopSt :=
  runLinesGo eng cfg none none (build_regex cfg) name 0 ⟨"", false, 0, [], 0⟩ lines

/-- C1: the claim asserts that batch search and follow mode apply the
identical context transition function, and in particular that a line
emitted as after-context is never also stored in the before-buffer. At the
sequence match/non-match/match with before=1, after=1, the batch driver
(src/search.rs lines 80-111) pushes the middle line into the before buffer
before emitting it as trailing context, so it is emitted again as leading
context of the second match, while the follow engine (src/follow.rs
`handle_line`) emits it once: the two emit different line sequences, and
the end-to-end batch output repeats "2:aaa". -/
theorem C1_batch_follow_context_diverge :
    searchCtxBatch 1 1 [("match", true), ("aaa", false), ("match", true)] =
      ["match", "aaa", "aaa", "match"]
    ∧ followCtxBatch 1 1 [("match", true), ("aaa", false), ("match", true)] =
      ["match", "aaa", "match"]
    ∧ searchCtxBatch 1 1 [("match", true), ("aaa", false), ("match", true)] ≠
      followCtxBatch 1 1 [("match", true), ("aaa", false), ("match", true)]
    ∧ run_on_reader literalEngine cfgMatch11 ["match", "aaa", "match"] none =
      .ok ⟨"1:match\n2:aaa\n2:aaa\n3:match\n", .MatchFound⟩ := by
  refine ⟨by decide, by decide, by decide, by decide⟩

/-- C7: the end-to-end scenario of spec §8: input lines line1/match/line3,
pattern "match", before=1, after=1 emit exactly "1:line1\n2:match\n3:line3\n"
with status MatchFound, each line prefixed by its 1-based number and a
colon. -/
theorem C7_end_to_end :
    run_on_reader literalEngine cfgMatch11
      (decodeBytesLines (strBytes "line1\nmatch\nline3\n")) none =
      .ok ⟨"1:line1\n2:match\n3:line3\n", .MatchFound⟩ := by
  decide

/-- C2 counterexample: "a b" is operator-free, yet the parser stops the
literal run at unescaped whitespace and ignores trailing input, returning
the literal "a" rather than a literal equal to the whole input. -/
theorem C2_counterexample :
    parse_boolean_expression "a b" = .ok (.Pattern "a")
    ∧ BooleanExpr.Pattern "a" ≠ .Pattern "a b" := by
  refine ⟨by decide, by decide⟩

/-- C4 counterexample: "a)" has unbalanced parentheses, yet
`parse_boolean_expression` succeeds with the literal "a" (the top-level
parse stops before the stray closing parenthesis and trailing input is
ignored), instead of returning an error as the claim requires. -/
theorem C4_counterexample :
    parse_boolean_expression "a)" = .ok (.Pattern "a") := by
  decide

/-- C4 amended: an opening parenthesis that is consumed but never closed
fails with the unclosed-parenthesis error (an unmatched closing parenthesis
after a complete expression is instead ignored, per the counterexample);
a primary position yielding zero characters — "()", a bare '&' at start or
end, also inside parentheses, or end-of-input right after an operator —
fails with the empty-pattern error; and on success the parser is a pure
function of the input (it is embedded as a total function). -/
theorem C4_amended_parse_errors :
    parse_boolean_expression "(a" = .error "Expected closing parenthesis"
    ∧ parse_boolean_expression "(a&(b)" = .error "Expected closing parenthesis"
    ∧ parse_boolean_expression "()" = .error "Expected pattern"
    ∧ parse_boolean_expression "(&a)" = .error "Expected pattern"
    ∧ parse_boolean_expression "(a&)" = .error "Expected pattern"
    ∧ parse_boolean_expression "&a" = .error "Expected pattern"
    ∧ parse_boolean_expression "a&" = .error "Expected pattern"
    ∧ parse_boolean_expression "a|" = .error "Expected pattern" := by
  refine ⟨by decide, by decide, by decide, by decide, by decide, by decide,
    by decide, by decide⟩

/-- C5: with a non-empty pattern list, the run hands the joined expression
to the Boolean-expression parser exactly when it contains a parenthesis
character or both '&' and '|' (the `has_complex_boolean_ops` predicate);
otherwise `parse_boolean_if_complex` reports `none` and `run_on_reader`
takes the flat alternation/AND-split path — in particular an expression
with only '&' (or only '|') and no parentheses stays on the flat path. -/
theorem C5_boolean_routing :
    ∀ cfg : Config, cfg.patterns ≠ [] →
      (has_complex_boolean_ops (rawPattern cfg) = true ↔
        ((rawPattern cfg).data.contains '(' = true ∨
          (rawPattern cfg).data.contains ')' = true ∨
          ((rawPattern cfg).data.contains '&' = true ∧
            (rawPattern cfg).data.contains '|' = true)))
      ∧ (has_complex_boolean_ops (rawPattern cfg) = false →
          parse_boolean_if_complex cfg = .ok none)
      ∧ (has_complex_boolean_ops (rawPattern cfg) = true →
          parse_boolean_if_complex cfg =
            match parse_boolean_expression (rawPattern cfg) with
            | .ok e => .ok (some e)
            | .error e => .error ("Boolean expression parse error: " ++ e)) := by
  intro cfg hne
  refine ⟨?_, ?_, ?_⟩
  · simp [has_complex_boolean_ops, or_assoc]
  · intro h
    simp [parse_boolean_if_complex, hne, h]
  · intro h
    simp only [parse_boolean_if_complex, if_neg hne, h, if_pos]

/-- Witness for C5 at the complex pattern "a&(b|c)". -/
theorem C5_boolean_routing_witness :
    cfgComplex.patterns ≠ []
    ∧ (has_complex_boolean_ops (rawPattern cfgComplex) = true ↔
        ((rawPattern cfgComplex).data.contains '(' = true ∨
          (rawPattern cfgComplex).data.contains ')' = true ∨
          ((rawPattern cfgComplex).data.contains '&' = true ∧
            (rawPattern cfgComplex).data.contains '|' = true)))
    ∧ parse_boolean_if_complex cfgComplex =
        .ok (some (.And (.Pattern "a") (.Or (.Pattern "b") (.Pattern "c")))) := by
  refine ⟨by decide, (C5_boolean_routing cfgComplex (by decide)).1, ?_⟩
  have h := (C5_boolean_routing cfgComplex (by decide)).2.2 (by decide)
  rw [h]
  decide

/-- C10: with nothing left after binary filtering — no files at all, or
every file excluded as binary — `run` returns `Ok` with empty output and
status `NoMatch` rather than an error; and `is_binary_path` reports
non-binary for any path that cannot be opened, deferring the I/O failure to
the later per-file open. -/
theorem C10_empty_after_filter :
    ∀ (eng : RegexEngine) (cfg : Config) (fs : FS) (stdin : List String)
      (files : List String),
      (filteredFiles fs files = [] →
        run_expanded eng cfg fs stdin files = .ok ⟨"", .NoMatch⟩)
      ∧ (∀ p, fs p = none → is_binary_path fs p = false) := by
  intro eng cfg fs stdin files
  constructor
  · intro h
    have hne : files ≠ ["-"] := by
      intro hd
      subst hd
      have hsingle : filteredFiles fs ["-"] = [(0, "-")] := by
        simp [filteredFiles, is_binary_path]
      rw [h] at hsingle
      exact List.noConfusion hsingle
    simp [run_expanded, hne, h]
  · intro p hp
    by_cases hd : p = "-"
    · simp [is_binary_path, hd]
    · simp [is_binary_path, hd, hp]

/-- Witness for C10: a lone binary file leaves nothing to search, the run
returns empty output with NoMatch, and a missing file is reported
non-binary. -/
theorem C10_empty_after_filter_witness :
    filteredFiles fsOneBinary ["only.bin"] = []
    ∧ run_expanded literalEngine cfgLitX fsOneBinary [] ["only.bin"] =
        .ok ⟨"", .NoMatch⟩
    ∧ fsOneBinary "gone.txt" = none
    ∧ is_binary_path fsOneBinary "gone.txt" = false := by
  refine ⟨by decide, ?_, by decide, ?_⟩
  · exact (C10_empty_after_filter literalEngine cfgLitX fsOneBinary []
      ["only.bin"]).1 (by decide)
  · exact (C10_empty_after_filter literalEngine cfgLitX fsOneBinary []
      ["only.bin"]).2 "gone.txt" (by decide)

/-- The aggregate run only reads the filesystem through binary filtering and
per-file opens: two filesystems that filter identically and open identically
on the surviving files produce identical runs. -/
theorem run_expanded_fs_congr (eng : RegexEngine) (cfg : Config)
    (fs₁ fs₂ : FS) (stdin : List String) (files : List String)
    (hfilt : filteredFiles fs₁ files = filteredFiles fs₂ files)
    (hopen : ∀ q ∈ filteredFiles fs₁ files,
      open_input_lines fs₁ stdin q.2 = open_input_lines fs₂ stdin q.2) :
    run_expanded eng cfg fs₁ stdin files = run_expanded eng cfg fs₂ stdin files := by
  unfold run_expanded
  by_cases hd : files = ["-"]
  · simp [hd]
  · simp only [if_neg hd]
    rw [← hfilt]
    by_cases hnil : (filteredFiles fs₁ files).isEmpty
    · simp [hnil]
    · simp only [hnil, Bool.false_eq_true, if_false]
      by_cases hlen : (filteredFiles fs₁ files).length = 1
      · rcases hF : filteredFiles fs₁ files with _ | ⟨⟨i, name⟩, tl⟩
        · rw [hF] at hnil
          simp at hnil
        · have hmem : (i, name) ∈ filteredFiles fs₁ files := by
            rw [hF]
            exact List.mem_cons_self _ _
          have hop := hopen _ hmem
          simp only [hF] at hlen ⊢
          simp [hlen, hop]
      · have hmap : (filteredFiles fs₁ files).map
            (fun q => (q.1, fileRunOf eng cfg fs₁ stdin q.2)) =
            (filteredFiles fs₁ files).map
            (fun q => (q.1, fileRunOf eng cfg fs₂ stdin q.2)) := by
          apply List.map_congr_left
          intro q hq
          have hop := hopen q hq
          simp [fileRunOf, hop]
        simp [hlen, hmap]

/-- C8: a file whose stored content has a NUL byte in its first 4096 bytes
is excluded from the aggregate run — it never survives the binary filter,
and the run's entire result (output and status) is unchanged under any
replacement of that file's content by other binary content, even content
matching the pattern; and the path "-" is never treated as binary. -/
theorem C8_binary_excluded :
    ∀ (eng : RegexEngine) (cfg : Config) (fs : FS) (stdin : List String)
      (files : List String) (p : String) (bs bs' : List Nat),
      is_binary_path (updateFS fs p bs) p = true →
      is_binary_path (updateFS fs p bs') p = true →
      (∀ q ∈ (filteredFiles (updateFS fs p bs) files).map Prod.snd, q ≠ p)
      ∧ run_expanded eng cfg (updateFS fs p bs) stdin files =
          run_expanded eng cfg (updateFS fs p bs') stdin files
      ∧ is_binary_path fs "-" = false := by
  intro eng cfg fs stdin files p bs bs' h1 h2
  have hnotp : ∀ x ∈ filteredFiles (updateFS fs p bs) files, x.2 ≠ p := by
    intro x hx hxp
    rcases List.mem_filter.mp hx with ⟨_, hpred⟩
    rw [hxp, h1] at hpred
    exact Bool.noConfusion hpred
  refine ⟨?_, ?_, ?_⟩
  · intro q hq
    rcases List.mem_map.mp hq with ⟨x, hx, rfl⟩
    exact hnotp x hx
  · apply run_expanded_fs_congr
    · unfold filteredFiles
      apply List.filter_congr
      intro x _
      by_cases hxp : x.2 = p
      · rw [hxp, h1, h2]
      · simp [is_binary_path, updateFS, hxp]
    · intro q hq
      have hqp := hnotp q hq
      simp [open_input_lines, updateFS, hqp]
  · simp [is_binary_path]

/-- Witness for C8: a file holding "match" plus a NUL byte is excluded and
interchangeable with a lone NUL byte without changing the run on the
pattern "match". -/
theorem C8_binary_excluded_witness :
    (∀ q ∈ (filteredFiles (updateFS fsOneText "bad.bin" nulAfterMatch)
        ["bad.bin", "ok.txt"]).map Prod.snd, q ≠ "bad.bin")
    ∧ run_expanded literalEngine cfgMatch11
        (updateFS fsOneText "bad.bin" nulAfterMatch) [] ["bad.bin", "ok.txt"] =
      run_expanded literalEngine cfgMatch11
        (updateFS fsOneText "bad.bin" [0]) [] ["bad.bin", "ok.txt"]
    ∧ is_binary_path fsOneText "-" = false :=
  C8_binary_excluded literalEngine cfgMatch11 fsOneText [] ["bad.bin", "ok.txt"]
    "bad.bin" nulAfterMatch [0] (by decide) (by decide)

/-- The complex-expression routing depends on the patterns only through
their separator-free join (and emptiness). -/
theorem pbic_join_congr (cfg : Config) (ps qs : List String)
    (hj : String.join ps = String.join qs) (hp : ps ≠ []) (hq : qs ≠ []) :
    parse_boolean_if_complex { cfg with patterns := ps } =
      parse_boolean_if_complex { cfg with patterns := qs } := by
  simp [parse_boolean_if_complex, hp, hq, rawPattern, hj]

/-- The unified regex depends on the patterns only through their join. -/
theorem build_regex_join_congr (cfg : Config) (ps qs : List String)
    (hj : String.join ps = String.join qs) :
    build_regex { cfg with patterns := ps } =
      build_regex { cfg with patterns := qs } := by
  simp [build_regex, rawPattern, hj, wrapWord, wrapLine, mkCompiled]

/-- The AND matchers depend on the patterns only through their join. -/
theorem build_and_matchers_join_congr (cfg : Config) (ps qs : List String)
    (hj : String.join ps = String.join qs) :
    build_and_matchers { cfg with patterns := ps } =
      build_and_matchers { cfg with patterns := qs } := by
  simp [build_and_matchers, rawPattern, hj, wrapWord, mkCompiled]

/-- Boolean-tree evaluation never reads the pattern list. -/
theorem matchesLine_patterns_congr (eng : RegexEngine) (cfg : Config)
    (ps qs : List String) (expr : BooleanExpr) (l : String) :
    expr.matchesLine eng { cfg with patterns := ps } l =
      expr.matchesLine eng { cfg with patterns := qs } l := by
  induction expr with
  | Pattern p => rfl
  | And a b iha ihb => simp [BooleanExpr.matchesLine, iha, ihb]
  | Or a b iha ihb => simp [BooleanExpr.matchesLine, iha, ihb]

/-- The per-line decision never reads the pattern list. -/
theorem lineDecision_patterns_congr (eng : RegexEngine) (cfg : Config)
    (ps qs : List String) (bexpr : Option BooleanExpr)
    (andMs : Option (List CompiledRegex)) (re : CompiledRegex) (l : String) :
    lineDecision eng { cfg with patterns := ps } bexpr andMs re l =
      lineDecision eng { cfg with patterns := qs } bexpr andMs re l := by
  cases bexpr with
  | none => rfl
  | some expr => exact matchesLine_patterns_congr eng cfg ps qs expr l

/-- The inverted decision never reads the pattern list. -/
theorem finalDecision_patterns_congr (eng : RegexEngine) (cfg : Config)
    (ps qs : List String) (bexpr : Option BooleanExpr)
    (andMs : Option (List CompiledRegex)) (re : CompiledRegex) (l : String) :
    finalDecision eng { cfg with patterns := ps } bexpr andMs re l =
      finalDecision eng { cfg with patterns := qs } bexpr andMs re l := by
  unfold finalDecision
  rw [lineDecision_patterns_congr eng cfg ps qs bexpr andMs re l]

/-- One loop iteration never reads the pattern list. -/
theorem processLine_patterns_congr (eng : RegexEngine) (cfg : Config)
    (ps qs : List String) (bexpr : Option BooleanExpr)
    (andMs : Option (List CompiledRegex)) (re : CompiledRegex)
    (name : Option String) (st : LoopSt) (i : Nat) (l : String) :
    processLine eng { cfg with patterns := ps } bexpr andMs re name st i l =
      processLine eng { cfg with patterns := qs } bexpr andMs re name st i l := by
  unfold processLine
  rw [finalDecision_patterns_congr eng cfg ps qs bexpr andMs re l]

/-- The per-line loop never reads the pattern list itself. -/
theorem runLinesGo_patterns_congr (eng : RegexEngine) (cfg : Config)
    (ps qs : List String) (bexpr : Option BooleanExpr)
    (andMs : Option (List CompiledRegex)) (re : CompiledRegex)
    (name : Option String) :
    ∀ (ls : List String) (i : Nat) (st : LoopSt),
      runLinesGo eng { cfg with patterns := ps } bexpr andMs re name i st ls =
        runLinesGo eng { cfg with patterns := qs } bexpr andMs re name i st ls := by
  intro ls
  induction ls with
  | nil => intro i st; rfl
  | cons l tl ih =>
    intro i st
    show runLinesGo _ _ _ _ _ _ _ (processLine _ _ _ _ _ _ st i l) tl = _
    rw [processLine_patterns_congr eng cfg ps qs bexpr andMs re name st i l]
    exact ih _ _

/-- C9 (implicit): the configured patterns are joined with no separator
before any routing, parsing or matcher construction, so two configurations
whose pattern lists have the same join (and agree on emptiness) behave
identically in `run_on_reader`: same output, same status, same errors — in
particular `["a", "b"]` behaves exactly like `["ab"]`. -/
theorem C9_patterns_concatenated :
    ∀ (eng : RegexEngine) (cfg : Config) (ps qs : List String)
      (lines : List String) (name : Option String),
      String.join ps = String.join qs → (ps = [] ↔ qs = []) →
      run_on_reader eng { cfg with patterns := ps } lines name =
        run_on_reader eng { cfg with patterns := qs } lines name := by
  intro eng cfg ps qs lines name hj hiff
  by_cases hp : ps = []
  · have hq := hiff.mp hp
    simp [run_on_reader, hp, hq]
  · have hq : qs ≠ [] := fun h => hp (hiff.mpr h)
    have hparse := pbic_join_congr cfg ps qs hj hp hq
    have hre := build_regex_join_congr cfg ps qs hj
    have hand := build_and_matchers_join_congr cfg ps qs hj
    unfold run_on_reader
    simp only [hp, hq, if_neg, hparse, hre, hand]
    rcases hpb : parse_boolean_if_complex { cfg with patterns := qs } with e | bexpr
    · rfl
    · simp only [runLinesGo_patterns_congr eng cfg ps qs]

/-- Witness for C9: the pattern lists `["a", "b"]` and `["ab"]` give the
same result on a line containing "ab". -/
theorem C9_patterns_concatenated_witness :
    String.join ["a", "b"] = String.join ["ab"]
    ∧ run_on_reader literalEngine { cfgNoColor with patterns := ["a", "b"] }
        ["xaby", "a only"] none =
      run_on_reader literalEngine { cfgNoColor with patterns := ["ab"] }
        ["xaby", "a only"] none := by
  refine ⟨by decide, ?_⟩
  exact C9_patterns_concatenated literalEngine cfgNoColor ["a", "b"] ["ab"]
    ["xaby", "a only"] none (by decide) (by decide)

/-- One loop iteration ors the final decision into `matchedAny`. -/
theorem processLine_matchedAny (eng : RegexEngine) (cfg : Config)
    (bexpr : Option BooleanExpr) (andMs : Option (List CompiledRegex))
    (re : CompiledRegex) (name : Option String) (st : LoopSt) (i : Nat)
    (l : String) :
    (processLine eng cfg bexpr andMs re name st i l).matchedAny =
      (st.matchedAny || finalDecision eng cfg bexpr andMs re l) := by
  simp only [processLine]
  split
  · rfl
  · split
    · rfl
    · split
      · rfl
      · rfl

/-- The loop's `matchedAny` is the disjunction of the per-line decisions. -/
theorem runLinesGo_matchedAny (eng : RegexEngine) (cfg : Config)
    (bexpr : Option BooleanExpr) (andMs : Option (List CompiledRegex))
    (re : CompiledRegex) (name : Option String) :
    ∀ (ls : List String) (i : Nat) (st : LoopSt),
      (runLinesGo eng cfg bexpr andMs re name i st ls).matchedAny =
        (st.matchedAny || ls.any (finalDecision eng cfg bexpr andMs re)) := by
  intro ls
  induction ls with
  | nil => intro i st; simp [runLinesGo]
  | cons l tl ih =>
    intro i st
    show (runLinesGo _ _ _ _ _ _ _ (processLine _ _ _ _ _ _ st i l) tl).matchedAny = _
    rw [ih, processLine_matchedAny]
    simp [Bool.or_assoc]

/-- C3 counterexample: with the configured pattern list `["a", "b"]` the
claim demands that the line "a" be reported as a match (its first pattern
matches it), but the flat path joins the patterns into the single regex
"ab", which does not match: the run reports no match at all. -/
theorem C3_counterexample :
    literalEngine.isMatch (build_pattern_regex cfgTwoPat "a") "a" = true
    ∧ run_on_reader literalEngine cfgTwoPat ["a"] none = .ok ⟨"", .NoMatch⟩ := by
  refine ⟨by decide, by decide⟩

/-- On the flat path without AND matchers, `run_on_reader` is the loop over
the unified regex followed by the count/quiet output assembly. -/
theorem run_on_reader_flat (eng : RegexEngine) (cfg : Config)
    (lines : List String) (name : Option String)
    (hne : cfg.patterns ≠ [])
    (hparse : parse_boolean_if_complex cfg = .ok none)
    (hand : build_and_matchers cfg = none) :
    run_on_reader eng cfg lines name =
      (if cfg.quiet then
        Except.ok ⟨"", statusOfB (flatLoop eng cfg name lines).matchedAny⟩
      else
        Except.ok ⟨assembleOut cfg name (flatLoop eng cfg name lines),
          statusOfB (flatLoop eng cfg name lines).matchedAny⟩) := by
  unfold run_on_reader statusOfB assembleOut flatLoop
  rw [if_neg hne, hparse]
  simp only [Option.isSome_none, Bool.false_eq_true, if_false, hand]

/-- C3 counterexample partner fact and amended statement share the setup:
the status of a flat-path run is `MatchFound` exactly when some line
matches the single regex built from the concatenated patterns. -/
theorem C3_amended_concat_semantics :
    ∀ (eng : RegexEngine) (cfg : Config) (lines : List String),
      cfg.patterns ≠ [] → cfg.invert = false →
      (rawPattern cfg).data.contains '&' = false →
      (rawPattern cfg).data.contains '(' = false →
      (rawPattern cfg).data.contains ')' = false →
      ∃ r : RunResult, run_on_reader eng cfg lines none = .ok r ∧
        (r.status = .MatchFound ↔
          ∃ l ∈ lines, eng.isMatch (build_regex cfg) l = true) := by
  intro eng cfg lines hne hinv hamp hlp hrp
  have hcomplex : has_complex_boolean_ops (rawPattern cfg) = false := by
    unfold has_complex_boolean_ops
    rw [hamp, hlp, hrp]
    rfl
  have hparse : parse_boolean_if_complex cfg = .ok none := by
    simp only [parse_boolean_if_complex]
    rw [if_neg hne, hcomplex]
    simp
  have hand : build_and_matchers cfg = none := by
    simp only [build_and_matchers]
    rw [hamp]
    simp
  have hflat : (flatLoop eng cfg none lines).matchedAny =
      lines.any fun l => eng.isMatch (build_regex cfg) l := by
    unfold flatLoop
    rw [runLinesGo_matchedAny]
    have hdef : finalDecision eng cfg none none (build_regex cfg) =
        fun l => eng.isMatch (build_regex cfg) l := by
      funext l
      simp [finalDecision, lineDecision, hinv]
    rw [hdef]
    simp
  have hsb : ∀ b : Bool, (statusOfB b = .MatchFound ↔ b = true) := by
    intro b
    cases b <;> simp [statusOfB]
  rw [run_on_reader_flat eng cfg lines none hne hparse hand]
  by_cases hq : cfg.quiet = true
  · rw [if_pos hq]
    refine ⟨_, rfl, ?_⟩
    dsimp only
    rw [hflat, hsb, List.any_eq_true]
  · rw [if_neg hq]
    refine ⟨_, rfl, ?_⟩
    dsimp only
    rw [hflat, hsb, List.any_eq_true]

/-- Witness for C3's amended statement at patterns ["foo", "bar"]: the
status reflects matching the concatenated regex "foobar". -/
theorem C3_amended_concat_semantics_witness :
    cfgFooBar.patterns ≠ []
    ∧ (∃ r : RunResult,
        run_on_reader literalEngine cfgFooBar ["xfoobarx", "none here"] none =
          .ok r ∧
        (r.status = .MatchFound ↔
          ∃ l ∈ ["xfoobarx", "none here"],
            literalEngine.isMatch (build_regex cfgFooBar) l = true)) := by
  refine ⟨by decide, ?_⟩
  exact C3_amended_concat_semantics literalEngine cfgFooBar
    ["xfoobarx", "none here"] (by decide) (by decide) (by decide) (by decide)
    (by decide)

/-- A literal run over break-free input consumes the whole input, whatever
the escape flag. -/
theorem litRun_no_break (cs : List Char) (h : ∀ c ∈ cs, isLitBreak c = false) :
    ∀ b, litRun cs b = (cs, []) := by
  induction cs with
  | nil => intro b; cases b <;> rfl
  | cons c tl ih =>
    intro b
    have hc : isLitBreak c = false := h c (List.mem_cons_self c tl)
    have htl : ∀ x ∈ tl, isLitBreak x = false := fun x hx =>
      h x (List.mem_cons_of_mem c hx)
    cases b with
    | true => simp [litRun, ih htl false]
    | false =>
      by_cases hbs : c = '\\'
      · simp [litRun, hbs, ih htl true]
      · simp [litRun, hbs, hc, ih htl false]

/-- Skipping whitespace is the identity on whitespace-free input. -/
theorem skipWhitespace_no_ws (cs : List Char)
    (h : ∀ c ∈ cs, c.isWhitespace = false) : skipWhitespace cs = cs := by
  cases cs with
  | nil => rfl
  | cons c tl => simp [skipWhitespace, h c (List.mem_cons_self c tl)]

/-- Unpack `opFreeChar` into its five component facts. -/
theorem opFreeChar_spec (c : Char) (h : opFreeChar c = true) :
    c ≠ '&' ∧ c ≠ '|' ∧ c ≠ '(' ∧ c ≠ ')' ∧ c.isWhitespace = false := by
  unfold opFreeChar at h
  simp only [Bool.and_eq_true, Bool.not_eq_true', decide_eq_false_iff_not] at h
  exact ⟨h.1.1.1.1, h.1.1.1.2, h.1.1.2, h.1.2, h.2⟩

/-- An operator-free character never breaks a literal run. -/
theorem opFreeChar_not_break (c : Char) (h : opFreeChar c = true) :
    isLitBreak c = false := by
  obtain ⟨h1, h2, _, h4, h5⟩ := opFreeChar_spec c h
  simp [isLitBreak, h1, h2, h4, h5]

/-- A primary over non-empty, operator-free, whitespace-free input consumes
the whole input as one literal. -/
theorem parseGo_prim_literal (fuel : Nat) (cs : List Char) (hne : cs ≠ [])
    (h : ∀ c ∈ cs, opFreeChar c = true) :
    parseGo (fuel + 1) .prim cs = .ok (.Pattern cs.asString, []) := by
  have hws : ∀ c ∈ cs, c.isWhitespace = false := fun c hc =>
    (opFreeChar_spec c (h c hc)).2.2.2.2
  have hbreak : ∀ c ∈ cs, isLitBreak c = false := fun c hc =>
    opFreeChar_not_break c (h c hc)
  obtain ⟨c, tl, rfl⟩ : ∃ c tl, cs = c :: tl := by
    cases cs with
    | nil => exact absurd rfl hne
    | cons c tl => exact ⟨c, tl, rfl⟩
  have hcp : c ≠ '(' := (opFreeChar_spec c (h c (List.mem_cons_self c tl))).2.2.1
  have heq : parseGo (fuel + 1) .prim (c :: tl) =
      (match skipWhitespace (c :: tl) with
       | '(' :: rest => do
         let (e, cs₁) ← parseGo fuel .or rest
         match skipWhitespace cs₁ with
         | ')' :: rest₁ => .ok (e, rest₁)
         | _ => .error "Expected closing parenthesis"
       | cs₁ =>
         let r := litRun cs₁ false
         if r.1 = [] then .error "Expected pattern"
         else .ok (.Pattern r.1.asString, r.2)) := rfl
  rw [heq, skipWhitespace_no_ws _ hws]
  split
  · next rest hmatch =>
    rw [List.cons.injEq] at hmatch
    exact absurd hmatch.1 hcp
  · rw [litRun_no_break _ hbreak false]
    simp

/-- The parser over non-empty, operator-free, whitespace-free input returns
one literal holding the whole input. -/
theorem parseGo_literal (cs : List Char) (hne : cs ≠ [])
    (h : ∀ c ∈ cs, opFreeChar c = true) :
    ∀ fuel, parseGo (fuel + 3) .or cs = .ok (.Pattern cs.asString, []) := by
  intro fuel
  have eqOr : parseGo (fuel + 3) .or cs =
      (do
        let (l, cs₁) ← parseGo (fuel + 2) .and cs
        parseGo (fuel + 2) (.orTail l) cs₁) := rfl
  have eqAnd : parseGo (fuel + 2) .and cs =
      (do
        let (p, cs₁) ← parseGo (fuel + 1) .prim cs
        parseGo (fuel + 1) (.andTail p) cs₁) := rfl
  rw [eqOr, eqAnd, parseGo_prim_literal fuel cs hne h]
  rfl

/-- The literal case of the grammar at the level of
`parse_boolean_expression`. -/
theorem parse_literal (s : String) (hne : s.data ≠ [])
    (h : ∀ c ∈ s.data, opFreeChar c = true) :
    parse_boolean_expression s = .ok (.Pattern s) := by
  unfold parse_boolean_expression
  rw [show 3 * s.data.length + 8 = (3 * s.data.length + 5) + 3 from by omega,
    parseGo_literal s.data hne h (3 * s.data.length + 5),
    show s.data.asString = s from by cases s; rfl]

/-- C2 amended: for every non-empty input containing none of '&', '|',
'(', ')' and no whitespace, the parser returns a single literal equal to
the whole input (backslash escapes are kept verbatim, so such inputs parse
to themselves); "a&b" and "a|b" split into the expected two-leaf trees;
"a&(b|c)" nests the parenthesized OR under the AND; '&' binds tighter than
'|' ("a|b&c"), and both operators associate to the left ("a&b&c",
"a|b|c"). The counterexample forces the non-empty/no-whitespace
restriction: operator-free input with whitespace parses to its first
whitespace-delimited run only. -/
theorem C2_amended_grammar :
    (∀ s : String, s.data ≠ [] → (∀ c ∈ s.data, opFreeChar c = true) →
      parse_boolean_expression s = .ok (.Pattern s))
    ∧ parse_boolean_expression "a&b" = .ok (.And (.Pattern "a") (.Pattern "b"))
    ∧ parse_boolean_expression "a|b" = .ok (.Or (.Pattern "a") (.Pattern "b"))
    ∧ parse_boolean_expression "a&(b|c)" =
        .ok (.And (.Pattern "a") (.Or (.Pattern "b") (.Pattern "c")))
    ∧ parse_boolean_expression "a|b&c" =
        .ok (.Or (.Pattern "a") (.And (.Pattern "b") (.Pattern "c")))
    ∧ parse_boolean_expression "a&b&c" =
        .ok (.And (.And (.Pattern "a") (.Pattern "b")) (.Pattern "c"))
    ∧ parse_boolean_expression "a|b|c" =
        .ok (.Or (.Or (.Pattern "a") (.Pattern "b")) (.Pattern "c")) := by
  refine ⟨parse_literal, by decide, by decide, by decide, by decide, by decide,
    by decide⟩

/-- Witness for C2's amended literal clause at the input "hello". -/
theorem C2_amended_grammar_witness :
    parse_boolean_expression "hello" = .ok (.Pattern "hello") :=
  C2_amended_grammar.1 "hello" (by decide) (by decide)

/-- With every per-file result successful, the collection loop returns the
outputs in order, no errors, and the disjunction of the statuses. -/
theorem foldl_splitStep_ok :
    ∀ (rs : List (Nat × Except String RunResult)) (acc : AggAcc),
      (∀ r ∈ rs, ∃ v, r.2 = .ok v) →
      rs.foldl splitStep acc =
        ⟨acc.outputs ++ rs.map (fun r => (r.1, exOutput r.2)),
          acc.errs,
          acc.matchedAny || rs.any (fun r => exStatus r.2 = .MatchFound)⟩ := by
  intro rs
  induction rs with
  | nil =>
    intro acc _
    simp
  | cons r tl ih =>
    intro acc h
    obtain ⟨v, hv⟩ := h r (List.mem_cons_self r tl)
    simp only [List.foldl_cons]
    rw [ih _ fun x hx => h x (List.mem_cons_of_mem r hx)]
    simp [splitStep, hv, exOutput, exStatus, Bool.or_assoc]

/-- Rust-style line splitting returns nothing only on empty input with an
empty accumulator. -/
theorem splitLinesGo_ne_nil :
    ∀ (cs cur : List Char), cs ≠ [] ∨ cur ≠ [] → splitLinesGo cs cur ≠ [] := by
  intro cs
  induction cs with
  | nil =>
    intro cur h
    rcases h with h | h
    · exact absurd rfl h
    · simp [splitLinesGo, h]
  | cons c tl ih =>
    intro cur _
    unfold splitLinesGo
    by_cases hc : c = '\n'
    · simp [hc]
    · simp only [hc, if_false]
      exact ih (c :: cur) (Or.inr (by simp))

/-- A string with no output lines is empty. -/
theorem eq_empty_of_charLines_nil (s : String) (h : charLines s = []) :
    s = "" := by
  unfold charLines at h
  rw [List.map_eq_nil_iff] at h
  by_contra hs
  have hd : s.data ≠ [] := by
    intro hdata
    exact hs (by cases s; simp_all)
  exact splitLinesGo_ne_nil s.data [] (Or.inl hd) h

/-- Joining all-empty strings yields the empty string. -/
theorem foldl_append_all_empty :
    ∀ (l : List String) (acc : String), (∀ x ∈ l, x = "") →
      l.foldl (fun r s => r ++ s) acc = acc := by
  intro l
  induction l with
  | nil => intro acc _; rfl
  | cons x tl ih =>
    intro acc h
    have hx : x = "" := h x (List.mem_cons_self x tl)
    simp only [List.foldl_cons, hx]
    rw [show acc ++ "" = acc from by simp]
    exact ih acc fun y hy => h y (List.mem_cons_of_mem x hy)

/-- If the collected line set is empty, every per-file output is empty and
the concatenation is the empty string. -/
theorem concat_outputs_of_no_lines (outputs : List (Nat × String))
    (h : collect_all_lines outputs = []) : concat_outputs outputs = "" := by
  unfold concat_outputs String.join
  apply foldl_append_all_empty
  intro x hx
  rcases List.mem_map.mp hx with ⟨p, hp, rfl⟩
  apply eq_empty_of_charLines_nil
  unfold collect_all_lines at h
  rw [List.flatMap_eq_nil_iff] at h
  have := h p hp
  rw [List.map_eq_nil_iff] at this
  have henum : (charLines p.2).enum = [] := this
  have hlen : (charLines p.2).length = 0 := by
    rw [← List.enum_length (l := charLines p.2), henum]
    rfl
  exact List.eq_nil_of_length_eq_zero hlen

/-- Lexicographic comparison at a cons pair. -/
theorem lexLeB_cons_iff (x y : Nat) (xs ys : List Nat) :
    lexLeB (x :: xs) (y :: ys) = true ↔
      (x < y ∨ (x = y ∧ lexLeB xs ys = true)) := by
  have hstep : lexLeB (x :: xs) (y :: ys) =
      if x < y then true else if y < x then false else lexLeB xs ys := rfl
  rw [hstep]
  by_cases h1 : x < y
  · simp [h1]
  · by_cases h2 : y < x
    · simp [h1, h2]
      omega
    · have hxy : x = y := by omega
      simp [h1, h2, hxy]

/-- The lexicographic comparison is total. -/
theorem lexLeB_total : ∀ a b : List Nat, lexLeB a b = true ∨ lexLeB b a = true := by
  intro a
  induction a with
  | nil => intro b; left; rfl
  | cons x xs ih =>
    intro b
    cases b with
    | nil => right; rfl
    | cons y ys =>
      rcases Nat.lt_trichotomy x y with h | h | h
      · left
        rw [lexLeB_cons_iff]
        exact Or.inl h
      · subst h
        rcases ih ys with h2 | h2
        · left
          rw [lexLeB_cons_iff]
          exact Or.inr ⟨rfl, h2⟩
        · right
          rw [lexLeB_cons_iff]
          exact Or.inr ⟨rfl, h2⟩
      · right
        rw [lexLeB_cons_iff]
        exact Or.inl h

/-- The lexicographic comparison is transitive. -/
theorem lexLeB_trans :
    ∀ a b c : List Nat, lexLeB a b = true → lexLeB b c = true →
      lexLeB a c = true := by
  intro a
  induction a with
  | nil => intro b c _ _; rfl
  | cons x xs ih =>
    intro b c hab hbc
    cases b with
    | nil => exact absurd hab (by simp [lexLeB])
    | cons y ys =>
      cases c with
      | nil => exact absurd hbc (by simp [lexLeB])
      | cons z zs =>
        rw [lexLeB_cons_iff] at hab hbc ⊢
        rcases hab with h | ⟨rfl, hab'⟩
        · rcases hbc with h2 | ⟨rfl, _⟩
          · exact Or.inl (Nat.lt_trans h h2)
          · exact Or.inl h
        · rcases hbc with h2 | ⟨rfl, hbc'⟩
          · exact Or.inl h2
          · exact Or.inr ⟨rfl, ih ys zs hab' hbc'⟩

/-- Mapping before testing a predicate composes (general-type version). -/
theorem any_map_general {α β : Type} (l : List α) (f : α → β) (p : β → Bool) :
    (l.map f).any p = l.any fun a => p (f a) := by
  induction l with
  | nil => rfl
  | cons a tl ih => simp [List.any_cons, ih]

/-- C6: in multi-file, non-count, non-quiet mode with every file readable,
the aggregator merges chronologically exactly when possible: there is a
line list that is a permutation of all collected output lines, sorted by
the key (timestamp, original file index, original line index), and the
run's output renders that sorted list if and only if every collected line
(stripped of its line-number prefix) carries a parseable timestamp;
otherwise the output is the per-file concatenation in original input
order. The status is `MatchFound` exactly when some file matched. -/
theorem C6_chronological_merge :
    ∀ (eng : RegexEngine) (cfg : Config) (fs : FS) (stdin : List String)
      (files : List String),
      cfg.count = false → cfg.quiet = false →
      2 ≤ (filteredFiles fs files).length →
      (∀ p ∈ filteredFiles fs files,
        ∃ v, fileRunOf eng cfg fs stdin p.2 = .ok v) →
      ∃ sorted : List OutLine,
        sorted.Perm (collect_all_lines (aggOutputs eng cfg fs stdin files))
        ∧ List.Sorted outLineLe sorted
        ∧ run_expanded eng cfg fs stdin files = .ok
            ⟨if (collect_all_lines (aggOutputs eng cfg fs stdin files)).all
                  (fun e => e.ts.isSome) then
                String.join (sorted.map fun e => e.text ++ "\n")
              else concat_outputs (aggOutputs eng cfg fs stdin files),
              if (filteredFiles fs files).any
                  (fun p => fileStatusOf eng cfg fs stdin p.2 = .MatchFound) then
                .MatchFound
              else .NoMatch⟩ := by
  intro eng cfg fs stdin files hc hq hlen hok
  haveI : IsTotal OutLine outLineLe := ⟨fun a b => lexLeB_total (keyOf a) (keyOf b)⟩
  haveI : IsTrans OutLine outLineLe := ⟨fun _ _ _ hab hbc => lexLeB_trans _ _ _ hab hbc⟩
  refine ⟨List.insertionSort outLineLe
    (collect_all_lines (aggOutputs eng cfg fs stdin files)),
    List.perm_insertionSort _ _, List.sorted_insertionSort _ _, ?_⟩
  have hne : files ≠ ["-"] := by
    intro hd
    subst hd
    have hb : (filteredFiles fs ["-"]).length ≤ 1 := by
      unfold filteredFiles
      calc (List.filter _ (["-"].enum)).length
          ≤ (["-"].enum).length := List.length_filter_le _ _
        _ = 1 := rfl
    omega
  have hFne : (filteredFiles fs files).isEmpty = false := by
    have : filteredFiles fs files ≠ [] := by
      intro h
      rw [h] at hlen
      simp at hlen
    simpa [List.isEmpty_iff] using this
  have hF1 : (filteredFiles fs files).length ≠ 1 := by omega
  unfold run_expanded
  rw [if_neg hne]
  simp only [hFne, Bool.false_eq_true, if_false]
  rw [if_neg hF1]
  have hresults : ∀ r ∈ (filteredFiles fs files).map
      (fun p => (p.1, fileRunOf eng cfg fs stdin p.2)), ∃ v, r.2 = .ok v := by
    intro r hr
    rcases List.mem_map.mp hr with ⟨p, hp, rfl⟩
    exact hok p hp
  unfold splitResults
  rw [foldl_splitStep_ok _ _ hresults]
  have houts : ((filteredFiles fs files).map
      (fun p => (p.1, fileRunOf eng cfg fs stdin p.2))).map
        (fun r => (r.1, exOutput r.2)) = aggOutputs eng cfg fs stdin files := by
    rw [List.map_map]
    rfl
  have hany : ((filteredFiles fs files).map
      (fun p => (p.1, fileRunOf eng cfg fs stdin p.2))).any
        (fun r => exStatus r.2 = .MatchFound) =
      (filteredFiles fs files).any
        (fun p => fileStatusOf eng cfg fs stdin p.2 = .MatchFound) := by
    rw [any_map_general]
    rfl
  dsimp only
  rw [houts, hany]
  simp only [List.nil_append, List.isEmpty_nil, Bool.not_true,
    Bool.false_eq_true, if_false, hq, hc, Bool.false_or]
  congr 1
  by_cases hall : (collect_all_lines (aggOutputs eng cfg fs stdin files)).all
      (fun e => e.ts.isSome) = true
  · by_cases hnil : collect_all_lines (aggOutputs eng cfg fs stdin files) = []
    · rw [hnil]
      rw [show merge_chronologically [] = none from rfl]
      simp only [Option.getD_none]
      rw [concat_outputs_of_no_lines _ hnil]
      simp [hall, hnil, String.join]
    · have hnone : (collect_all_lines (aggOutputs eng cfg fs stdin files)).any
          (fun e => e.ts.isNone) = false := by
        rw [List.any_eq_false]
        intro e he
        have hs := List.all_eq_true.mp hall e he
        cases hts : e.ts with
        | none => rw [hts] at hs; exact absurd hs (by simp)
        | some t => simp [hts]
      unfold merge_chronologically
      rw [hnone]
      simp only [hall, if_true]
      have hie : (collect_all_lines (aggOutputs eng cfg fs stdin files)).isEmpty
          = false := by simpa [List.isEmpty_iff] using hnil
      rw [hie]
      rfl
  · have hsome : (collect_all_lines (aggOutputs eng cfg fs stdin files)).any
        (fun e => e.ts.isNone) = true := by
      rw [List.all_eq_true] at hall
      push_neg at hall
      rcases hall with ⟨e, he, hne'⟩
      rw [List.any_eq_true]
      refine ⟨e, he, ?_⟩
      cases hts : e.ts with
      | none => simp
      | some t => rw [hts] at hne'; exact absurd (by simp) hne'
    unfold merge_chronologically
    rw [hsome]
    simp [hall]

/-- Witness for C6: two log files whose single lines carry timestamps in
reverse file order; the run merges them chronologically, and the run's
output is the sorted rendering. -/
theorem C6_chronological_merge_witness :
    cfgLitX.count = false
    ∧ cfgLitX.quiet = false
    ∧ 2 ≤ (filteredFiles fsTwoLogs ["b.log", "a.log"]).length
    ∧ (∃ sorted : List OutLine,
        sorted.Perm (collect_all_lines
          (aggOutputs literalEngine cfgLitX fsTwoLogs [] ["b.log", "a.log"]))
        ∧ List.Sorted outLineLe sorted
        ∧ run_expanded literalEngine cfgLitX fsTwoLogs [] ["b.log", "a.log"] =
            .ok
            ⟨if (collect_all_lines (aggOutputs literalEngine cfgLitX fsTwoLogs []
                  ["b.log", "a.log"])).all (fun e => e.ts.isSome) then
                String.join (sorted.map fun e => e.text ++ "\n")
              else concat_outputs (aggOutputs literalEngine cfgLitX fsTwoLogs []
                ["b.log", "a.log"]),
              if (filteredFiles fsTwoLogs ["b.log", "a.log"]).any
                  (fun p => fileStatusOf literalEngine cfgLitX fsTwoLogs [] p.2 =
                    .MatchFound) then
                .MatchFound
              else .NoMatch⟩)
    ∧ run_expanded literalEngine cfgLitX fsTwoLogs [] ["b.log", "a.log"] =
        .ok ⟨"1:2024-01-01T03:04:05 x\n1:2024-01-02T03:04:05 x\n",
          .MatchFound⟩ := by
  refine ⟨by decide, by decide, by decide, ?_, by decide⟩
  apply C6_chronological_merge literalEngine cfgLitX fsTwoLogs []
    ["b.log", "a.log"] (by decide) (by decide) (by decide)
  intro p hp
  rw [show filteredFiles fsTwoLogs ["b.log", "a.log"] =
    [(0, "b.log"), (1, "a.log")] from by decide] at hp
  simp only [List.mem_cons, List.not_mem_nil, or_false] at hp
  rcases hp with rfl | rfl
  · exact ⟨⟨"1:2024-01-02T03:04:05 x\n", .MatchFound⟩, by decide⟩
  · exact ⟨⟨"1:2024-01-01T03:04:05 x\n", .MatchFound⟩, by decide⟩

end RGrep
